import Mathlib

/-!
Verification development for the overdose-statistics / vote-tally app
(`src/src/App.jsx` and `src/src/firebase.js`).

The JavaScript source is shallowly embedded:
* `parseCsv` embeds the character-stream CSV tokenizer (App.jsx 168-221);
* `load` embeds the header validation and aggregation pass of the `load`
  function (App.jsx 250-313), with the network fetch factored out: the
  function receives the already-fetched text, as the surrounding
  collaborator supplies it;
* `castVoteTx` embeds the transaction body of `castVote` (App.jsx 406-428);
* JavaScript numbers are modelled as exact rationals (`ℚ`); `jsNumber`
  models `Number(string)` on the decimal-literal fragment the data uses
  (whitespace trimming, empty string to `0`, optional sign, digits with an
  optional fraction part; anything else, like JS `NaN`/`Infinity`, is
  `none` — every use of `Number` in the source is guarded by
  `Number.isFinite`, so the non-finite outcomes are indistinguishable);
* JavaScript objects used as maps are modelled as insertion-ordered
  association lists, and the `Set` of indicators as a duplicate-free list;
* `serverTimestamp()` is modelled as an explicit `now : Nat` parameter;
* `localeCompare`-based sorting is modelled as sorting by code-point order
  (`insertSorted`/`sortStrings`); no claim depends on the tie-breaking
  details of the locale order, only on the sort being a permutation.
-/

attribute [local semireducible] Rat.add Rat.mul Rat.sub Rat.inv

/-- The fixed calendar table `MONTHS` (App.jsx 6-19). -/
def MONTHS : List String :=
  ["January", "February", "March", "April", "May", "June",
   "July", "August", "September", "October", "November", "December"]

/-- Index of the first element satisfying `p`. -/
def findIdxFrom (p : String → Bool) : List String → Option Nat
  | [] => none
  | x :: t => if p x then some 0 else (findIdxFrom p t).map (· + 1)

/-- `MONTH_TO_NUM.get name` (App.jsx 21): 1-based month ordinal, `none`
when the name is not a full English month name. -/
def monthToNum (name : String) : Option Nat :=
  (findIdxFrom (· = name) MONTHS).map (· + 1)

/-- Index of the last occurrence of `name` in `l`.  This models lookup in
`Object.fromEntries(headerRow.map((h, idx) => [h, idx]))` (App.jsx 257):
with duplicate header names, `fromEntries` keeps the last index. -/
def lastIdxOf (l : List String) (name : String) : Option Nat :=
  (findIdxFrom (· = name) l.reverse).map (fun i => l.length - 1 - i)

/-- The character loop of `parseCsv` (App.jsx 174-213), with the mutable
`rows`/`row`/`field`/`inQuotes` state passed explicitly.  The final
`[]` case is the flush of App.jsx 210-213. -/
def csvLoop : Bool → String → List String → List (List String) →
    List Char → List (List String)
  | _, field, row, rows, [] =>
      if field.length > 0 ∨ row.length > 0 then rows ++ [row ++ [field]] else rows
  | true, field, row, rows, '"' :: '"' :: cs =>
      csvLoop true (field.push '"') row rows cs
  | inQ, field, row, rows, '"' :: cs =>
      csvLoop (!inQ) field row rows cs
  | inQ, field, row, rows, c :: cs =>
      if c = ',' ∧ inQ = false then
        csvLoop inQ "" (row ++ [field]) rows cs
      else if c = '\n' ∧ inQ = false then
        csvLoop inQ "" [] (rows ++ [row ++ [field]]) cs
      else if c = '\r' then
        csvLoop inQ field row rows cs
      else
        csvLoop inQ (field.push c) row rows cs

/-- The trailing-empty-row drop of `parseCsv` (App.jsx 216-218): pop rows
from the end while every field is the empty string. -/
def dropTrailingEmptyRows (rows : List (List String)) : List (List String) :=
  ((rows.reverse).dropWhile (fun r => r.all (· == ""))).reverse

/-- `parseCsv` (App.jsx 168-221). -/
def parseCsv (text : String) : List (List String) :=
  dropTrailingEmptyRows (csvLoop false "" [] [] text.data)

/-! ## JavaScript numbers -/

/-- White space trimmed by JS string-to-number conversion (the common
ASCII subset). -/
def isJsSpace (c : Char) : Bool :=
  c == ' ' || c == '\t' || c == '\n' || c == '\r'

/-- Decimal value of a digit string. -/
def digitsToNat (ds : List Char) : Nat :=
  ds.foldl (fun a c => a * 10 + (c.toNat - '0'.toNat)) 0

/-- Model of JavaScript `Number(string)` restricted to plain decimal
literals: surrounding white space is trimmed, the empty (or all-space)
string converts to `0`, and an optional sign followed by digits with an
optional fraction part converts to its exact value.  Any other string —
including the inputs JS maps to `NaN` or `±Infinity` — is `none`; every
use of `Number` in App.jsx is immediately guarded by `Number.isFinite`,
so `none` exactly captures the rejected cases. -/
def jsNumber (s : String) : Option ℚ :=
  let cs := ((s.data.dropWhile isJsSpace).reverse.dropWhile isJsSpace).reverse
  if cs = [] then some 0
  else
    let signAndRest : ℚ × List Char :=
      match cs with
      | '-' :: t => (-1, t)
      | '+' :: t => (1, t)
      | _ => (1, cs)
    let sign := signAndRest.1
    let body := signAndRest.2
    let ipart := body.takeWhile Char.isDigit
    match body.dropWhile Char.isDigit with
    | [] =>
        if ipart = [] then none
        else some (sign * (digitsToNat ipart : ℚ))
    | '.' :: fpart =>
        if fpart.all Char.isDigit ∧ (ipart ≠ [] ∨ fpart ≠ []) then
          some (sign * ((digitsToNat ipart : ℚ) +
            (digitsToNat fpart : ℚ) / ((10 : ℚ) ^ fpart.length)))
        else none
    | _ => none

/-- Fraction digits of a rational in `[0, 1)`, with fuel (the rationals
produced by `jsNumber` have finite decimal expansions). -/
def fracDigits : ℚ → Nat → List Char
  | _, 0 => []
  | q, fuel + 1 =>
      if q = 0 then []
      else
        let q10 := q * 10
        let d := Rat.floor q10
        Char.ofNat ('0'.toNat + d.toNat) :: fracDigits (q10 - (d : ℚ)) fuel

/-- Decimal rendering of a non-negative rational. -/
def ratAbsToString (q : ℚ) : String :=
  let ip := Rat.floor q
  let fr := q - (ip : ℚ)
  if fr = 0 then toString ip else toString ip ++ "." ++ String.mk (fracDigits fr 40)

/-- Model of JavaScript number-to-string conversion (template-literal
interpolation `${year}` in App.jsx 296), on the finite-decimal rationals
the pipeline produces: integers render as their decimal digits, other
values as integer part, a dot, and the fraction digits. -/
def jsNumToString (q : ℚ) : String :=
  if q < 0 then "-" ++ ratAbsToString (-q) else ratAbsToString q

/-! ## The aggregation pass of `load` -/

/-- JavaScript `String.prototype.padStart` (App.jsx 296). -/
def padStart (s : String) (n : Nat) (c : Char) : String :=
  String.mk (List.replicate (n - s.length) c) ++ s

/-- Row-length normalization (App.jsx 281-282): truncate to the header
length, then pad with empty strings up to it. -/
def normalizeRow (r : List String) (n : Nat) : List String :=
  let row := r.take n
  row ++ List.replicate (n - row.length) ""

/-- The column indices resolved from the header (App.jsx 258-262). -/
structure ColIdxs where
  yearIdx : Nat
  monthIdx : Nat
  indicatorIdx : Nat
  dataValueIdx : Nat
  predictedIdx : Option Nat
deriving DecidableEq

/-- The month key `` `${year}-${String(monthNum).padStart(2, '0')}` ``
(App.jsx 296). -/
def mkMonthKey (year : ℚ) (monthNum : Nat) : String :=
  jsNumToString year ++ "-" ++ padStart (toString monthNum) 2 '0'

/-- The per-row extraction and validation of the aggregation loop
(App.jsx 280-296): `none` means the row is silently skipped, `some`
carries the accepted observation `(indicator, monthKey, value)`.
`(row.get? i).getD ""` models `row[i] || ''` and out-of-range access
feeding `Number` models `Number(undefined) = NaN` as `none`. -/
def rowObservation (hlen : Nat) (idxs : ColIdxs) (r : List String) :
    Option (String × String × ℚ) :=
  let row := normalizeRow r hlen
  let indicator := (row.get? idxs.indicatorIdx).getD ""
  let year? := (row.get? idxs.yearIdx).bind jsNumber
  let monthName := (row.get? idxs.monthIdx).getD ""
  match year?, monthToNum monthName with
  | some year, some monthNum =>
      if indicator = "" then none
      else
        let raw := row.get? idxs.dataValueIdx
        let rawPredicted : Option String :=
          match idxs.predictedIdx with
          | some p => row.get? p
          | none => some ""
        let value? : Option ℚ :=
          match raw with
          | none => none
          | some s => if s ≠ "" then jsNumber s else rawPredicted.bind jsNumber
        match value? with
        | some value => some (indicator, mkMonthKey year monthNum, value)
        | none => none
  | _, _ => none

/-- Association-list lookup, modelling property read on a JS object used
as a string-keyed map. -/
def alGet {β : Type} : List (String × β) → String → Option β
  | [], _ => none
  | (k', v') :: t, k => if k' = k then some v' else alGet t k

/-- Association-list write, modelling property assignment on a JS object:
an existing key is updated in place, a new key is appended (insertion
order). -/
def alSet {β : Type} : List (String × β) → String → β → List (String × β)
  | [], k, v => [(k, v)]
  | (k', v') :: t, k, v =>
      if k' = k then (k', v) :: t else (k', v') :: alSet t k v

/-- Lookup in the two-level map `m[indicator][monthKey]`. -/
def alGet2 (m : List (String × List (String × ℚ))) (i k : String) : Option ℚ :=
  match alGet m i with
  | none => none
  | some inner => alGet inner k

/-- The accumulation step
`if (!m[ind]) m[ind] = {}; m[ind][mk] = (m[ind][mk] ?? 0) + v`
(App.jsx 299-303). -/
def bump (m : List (String × List (String × ℚ))) (ind mk : String) (v : ℚ) :
    List (String × List (String × ℚ)) :=
  let inner := (alGet m ind).getD []
  alSet m ind (alSet inner mk (((alGet inner mk).getD 0) + v))

/-- The mutable aggregation state of the loop (App.jsx 275-277). -/
structure AggState where
  totals : List (String × List (String × ℚ))
  counts : List (String × List (String × ℚ))
  indicatorSet : List String
deriving DecidableEq

/-- One iteration of the aggregation loop (App.jsx 279-304). -/
def applyRow (hlen : Nat) (idxs : ColIdxs) (st : AggState) (r : List String) :
    AggState :=
  match rowObservation hlen idxs r with
  | none => st
  | some (ind, mk, v) =>
      { totals := bump st.totals ind mk v
        counts := bump st.counts ind mk 1
        indicatorSet :=
          if ind ∈ st.indicatorSet then st.indicatorSet
          else st.indicatorSet ++ [ind] }

/-- Code-point-order comparison of character lists. -/
def charListLe : List Char → List Char → Bool
  | [], _ => true
  | _ :: _, [] => false
  | a :: as, b :: bs =>
      if a = b then charListLe as bs else decide (a.toNat < b.toNat)

/-- Code-point-order comparison of strings, standing in for the locale
order of `localeCompare`; claims use only that sorting permutes. -/
def strLeB (a b : String) : Bool := charListLe a.data b.data

/-- Insertion into a sorted list. -/
def insertSorted (x : String) : List String → List String
  | [] => [x]
  | y :: t => if strLeB x y then x :: y :: t else y :: insertSorted x t

/-- `Array.from(indicatorSet).sort((a, b) => a.localeCompare(b))`
(App.jsx 308), modelled as insertion sort by code-point order. -/
def sortStrings : List String → List String
  | [] => []
  | x :: t => insertSorted x (sortStrings t)

/-- Does the character sequence `pat` occur contiguously in the list? -/
def containsSeq (pat : List Char) : List Char → Bool
  | [] => pat.isEmpty
  | c :: t => pat.isPrefixOf (c :: t) || containsSeq pat t

/-- Substring test, JS `String.prototype.includes`. -/
def strIncludes (s pat : String) : Bool :=
  containsSeq pat.data s.data

/-- JS `String.prototype.toLowerCase` (ASCII; the indicator names in the
dataset are ASCII). -/
def jsToLowerCase (s : String) : String := String.mk (s.data.map Char.toLower)

/-- The default-indicator selection
`list.find(v => v.toLowerCase().includes('all')) ?? list[0] ?? ''`
(App.jsx 309-310). -/
def defaultIndicator (l : List String) : String :=
  (l.find? (fun v => strIncludes (jsToLowerCase v) "all")).getD (l.headD "")

/-- The data the successful branch of `load` publishes (App.jsx 312-315). -/
structure AggOut where
  totals : List (String × List (String × ℚ))
  counts : List (String × List (String × ℚ))
  indicators : List String
  selected : String
deriving DecidableEq

/-- The `load` pipeline from raw CSV text to published aggregation
(App.jsx 250-316), with the fetch factored out; thrown errors are
modelled as `Except.error` carrying the thrown message. -/
def load (text : String) : Except String AggOut :=
  match parseCsv text with
  | [] => Except.error "CSV appears to be empty (missing header row)."
  | headerRow :: dataRows =>
      if headerRow.length = 0 then
        Except.error "CSV appears to be empty (missing header row)."
      else
        match lastIdxOf headerRow "Year", lastIdxOf headerRow "Month",
            lastIdxOf headerRow "Indicator", lastIdxOf headerRow "Data Value" with
        | some yearIdx, some monthIdx, some indicatorIdx, some dataValueIdx =>
            let idxs : ColIdxs :=
              ⟨yearIdx, monthIdx, indicatorIdx, dataValueIdx,
                lastIdxOf headerRow "Predicted Value"⟩
            let st := dataRows.foldl (applyRow headerRow.length idxs) ⟨[], [], []⟩
            let indicatorList := sortStrings st.indicatorSet
            Except.ok
              ⟨st.totals, st.counts, indicatorList, defaultIndicator indicatorList⟩
        | _, _, _, _ =>
            Except.error ("CSV missing required columns. Found headers: " ++
              String.intercalate ", " headerRow)

/-- The scenario input of the spec (§8, last bullet). -/
def c1text : String :=
  "Year,Month,Indicator,Data Value\n2021,January,Opioid,10\n2021,January,Opioid,5\n2021,February,Opioid,\n"

/-- What `load` actually produces on `c1text`. -/
def c1out : AggOut :=
  ⟨[("Opioid", [("2021-01", 15), ("2021-02", 0)])],
   [("Opioid", [("2021-01", 2), ("2021-02", 1)])],
   ["Opioid"], "Opioid"⟩

/-! ## The vote tally -/

/-- The shared counter record in the external document store (spec §3
`VoteCounter`, App.jsx 419-427).  Fields are optional because a stored
document may lack any of them (`data.forCount ?? 0`,
`data.createdAt ?? serverTimestamp()`); counts are exact rationals, and
`Number(...)` with the `Number.isFinite` guard on a stored number is the
identity, so the `?? 0` fallback is `Option.getD 0`.  Timestamps are
abstract `Nat` tokens standing for `serverTimestamp()` values. -/
structure VoteDoc where
  forCount : Option ℚ
  againstCount : Option ℚ
  createdAt : Option Nat
  updatedAt : Option Nat
deriving DecidableEq

/-- The body of the `castVote` transaction (App.jsx 406-428): read the
snapshot (`none` = the record does not exist), treat missing counts as
zero, increment exactly the chosen category, preserve an existing
creation timestamp, and stamp `updatedAt` with the current server time
`now`.  `runTransaction` makes this read-modify-write atomic, so a
serialized execution of transaction bodies is the faithful model of
concurrent `castVote` calls. -/
def castVoteTx (direction : String) (now : Nat) (snap : Option VoteDoc) : VoteDoc :=
  let data : VoteDoc := snap.getD ⟨none, none, none, none⟩
  let safeFor : ℚ := data.forCount.getD 0
  let safeAgainst : ℚ := data.againstCount.getD 0
  let nextFor := if direction = "for" then safeFor + 1 else safeFor
  let nextAgainst := if direction = "against" then safeAgainst + 1 else safeAgainst
  { forCount := some nextFor
    againstCount := some nextAgainst
    createdAt := some (match snap with
      | some d => d.createdAt.getD now
      | none => now)
    updatedAt := some now }

/-- Modelled from the spec (§3 MonthKey): a string of the canonical form
`YYYY-MM` — exactly four digits, a hyphen, and two digits.  This is the
spec-side definition the code's month key is compared against in claim
C6; the code itself never enforces it. -/
def specCanonicalMonthKey (s : String) : Bool :=
  match s.data with
  | [a, b, c, d, e, f, g] =>
      a.isDigit && b.isDigit && c.isDigit && d.isDigit &&
        (e = '-' : Bool) && f.isDigit && g.isDigit
  | _ => false

/-! ## Claim theorems -/

/-- Claim C2: starting from a counter record `{forCount: 3, againstCount: 1}`,
executing the `castVote("for")` read-modify-write transaction body twice in
sequence — the two serialization orders of two identical transactions differ
only in which server timestamps `t1`, `t2` they observe, which the statement
quantifies over — ends at `{forCount: 5, againstCount: 1}`: no increment is
lost, because each transaction reads the state the previous one wrote. -/
theorem castVote_two_sequential_for (t1 t2 : Nat) (c u : Option Nat) :
    (castVoteTx "for" t2 (some (castVoteTx "for" t1
        (some ⟨some 3, some 1, c, u⟩)))).forCount = some 5 ∧
    (castVoteTx "for" t2 (some (castVoteTx "for" t1
        (some ⟨some 3, some 1, c, u⟩)))).againstCount = some 1 := by
  refine ⟨?_, ?_⟩
  · simp [castVoteTx]
    norm_num
  · simp [castVoteTx]

/-- Witness for C2 at concrete timestamps. -/
theorem castVote_two_sequential_for_witness :
    (castVoteTx "for" 1 (some (castVoteTx "for" 0
        (some ⟨some 3, some 1, none, none⟩)))).forCount = some 5 ∧
    (castVoteTx "for" 1 (some (castVoteTx "for" 0
        (some ⟨some 3, some 1, none, none⟩)))).againstCount = some 1 :=
  castVote_two_sequential_for 0 1 none none

/-- Claim C4: a `castVote(direction)` write on an existing record increments
exactly the chosen category (reading a missing count as 0), leaves the other
category's count untouched, preserves the record's original `createdAt`
whenever it has one, and stamps a fresh `updatedAt`; on a missing record the
counts are treated as zero/zero and a fresh creation timestamp is stamped. -/
theorem castVote_frame (dir : String) (now : Nat) (d : VoteDoc)
    (_hdir : dir = "for" ∨ dir = "against") :
    (castVoteTx dir now (some d)).forCount =
      some (d.forCount.getD 0 + if dir = "for" then 1 else 0) ∧
    (castVoteTx dir now (some d)).againstCount =
      some (d.againstCount.getD 0 + if dir = "against" then 1 else 0) ∧
    (castVoteTx dir now (some d)).createdAt = some (d.createdAt.getD now) ∧
    (∀ c, d.createdAt = some c → (castVoteTx dir now (some d)).createdAt = some c) ∧
    (castVoteTx dir now (some d)).updatedAt = some now ∧
    (castVoteTx dir now none).forCount = some (if dir = "for" then 1 else 0) ∧
    (castVoteTx dir now none).againstCount =
      some (if dir = "against" then 1 else 0) ∧
    (castVoteTx dir now none).createdAt = some now ∧
    (castVoteTx dir now none).updatedAt = some now := by
  refine ⟨?_, ?_, ?_, ?_, ?_, ?_, ?_, ?_, ?_⟩
  · by_cases h : dir = "for" <;> simp [castVoteTx, h]
  · by_cases h : dir = "against" <;> simp [castVoteTx, h]
  · simp [castVoteTx]
  · intro c hc
    simp [castVoteTx, hc]
  · simp [castVoteTx]
  · by_cases h : dir = "for" <;> simp [castVoteTx, h]
  · by_cases h : dir = "against" <;> simp [castVoteTx, h]
  · simp [castVoteTx]
  · simp [castVoteTx]

/-- Witness for C4: voting "for" on the pre-existing record
`{forCount: 2, againstCount: 3, createdAt: 5, updatedAt: 6}` keeps the
original creation timestamp `5`. -/
theorem castVote_frame_witness :
    (castVoteTx "for" 7 (some ⟨some 2, some 3, some 5, some 6⟩)).createdAt =
      some 5 :=
  (castVote_frame "for" 7 ⟨some 2, some 3, some 5, some 6⟩ (Or.inl rfl)).2.2.2.1 5 rfl

/-- Counterexample to claim C1: on the scenario input the claim asserts that
MonthKey "2021-02" is absent from both the totals and counts maps; in fact
`load` succeeds and the pair ("Opioid", "2021-02") is present in both, with
count 1 and total 0 — the blank `Data Value` (with no `Predicted Value`
column) resolves through `Number('')` to `0`, which is finite, so the third
row is not skipped. -/
theorem c1_counterexample :
    load c1text = Except.ok c1out ∧
    alGet2 c1out.counts "Opioid" "2021-02" = some 1 ∧
    alGet2 c1out.totals "Opioid" "2021-02" = some 0 := ⟨rfl, rfl, rfl⟩

/-- Amended claim C1: on the scenario input, aggregation yields for
indicator "Opioid": MonthKey "2021-01" with total 15 and count 2, and
MonthKey "2021-02" present with total 0 and count 1 (the blank value is
read as 0, not skipped). -/
theorem c1_amended :
    load c1text = Except.ok c1out ∧
    alGet2 c1out.totals "Opioid" "2021-01" = some 15 ∧
    alGet2 c1out.counts "Opioid" "2021-01" = some 2 ∧
    alGet2 c1out.totals "Opioid" "2021-02" = some 0 ∧
    alGet2 c1out.counts "Opioid" "2021-02" = some 1 :=
  ⟨rfl, rfl, rfl, rfl, rfl⟩

/-- Counterexample to claim C3: tokenizing `a,b\nc,""d""\n` does not
yield `[["a","b"],["c","\"d\""]]` — the doubled quotes around `d` are
read outside quoted mode (the first of each pair toggles quoting on), so
they never hit the escaped-quote branch. -/
theorem c3_counterexample :
    parseCsv "a,b\nc,\"\"d\"\"\n" ≠ [["a", "b"], ["c", "\"d\""]] := by
  decide

/-- Amended claim C3: tokenizing `a,b\nc,""d""\n` yields
`[["a","b"],["c","d"]]`; the doubled-quote collapse to a literal quote
happens only when the pair is read while already inside a quoted field,
as in `a,b\nc,"""d"""\n`, which yields `[["a","b"],["c","\"d\""]]`. -/
theorem c3_amended :
    parseCsv "a,b\nc,\"\"d\"\"\n" = [["a", "b"], ["c", "d"]] ∧
    parseCsv "a,b\nc,\"\"\"d\"\"\"\n" = [["a", "b"], ["c", "\"d\""]] :=
  ⟨by decide, by decide⟩

/-- A found index is within the list. -/
theorem findIdxFrom_lt_length (p : String → Bool) (l : List String) (i : Nat)
    (h : findIdxFrom p l = some i) : i < l.length := by
  induction l generalizing i with
  | nil => simp [findIdxFrom] at h
  | cons x t ih =>
    simp only [findIdxFrom] at h
    by_cases hp : p x
    · simp [hp] at h
      simp
      omega
    · simp [hp] at h
      cases hf : findIdxFrom p t with
      | none => rw [hf] at h; simp at h
      | some j =>
        rw [hf] at h
        simp at h
        have := ih j hf
        simp
        omega

/-- A resolved column index is within the header. -/
theorem lastIdxOf_lt_length (l : List String) (name : String) (j : Nat)
    (h : lastIdxOf l name = some j) : j < l.length := by
  unfold lastIdxOf at h
  cases hf : findIdxFrom (· = name) l.reverse with
  | none => rw [hf] at h; simp at h
  | some i =>
    rw [hf] at h
    simp at h
    have hi := findIdxFrom_lt_length _ _ _ hf
    rw [List.length_reverse] at hi
    omega

/-- Claim C7: a data row is normalized to exactly the header length —
truncating overflow fields and padding missing trailing fields with empty
strings without disturbing the fields that are present — and every column
index the header resolves is within the header length, hence within the
normalized row. -/
theorem normalizeRow_spec (r : List String) (n : Nat) :
    (normalizeRow r n).length = n ∧
    (∀ i, i < r.length → i < n → (normalizeRow r n)[i]? = r[i]?) ∧
    (∀ i, r.length ≤ i → i < n → (normalizeRow r n)[i]? = some "") ∧
    (∀ (h : List String) (name : String) (j : Nat),
        lastIdxOf h name = some j → j < h.length) := by
  refine ⟨?_, ?_, ?_, fun h name j hj => lastIdxOf_lt_length h name j hj⟩
  · simp [normalizeRow]
  · intro i h1 h2
    have hlt : i < (List.take n r).length := by simp; omega
    simp only [normalizeRow]
    rw [List.getElem?_append_left hlt]
    simp [List.getElem?_take, h2]
  · intro i h1 h2
    have hge : (List.take n r).length ≤ i := by simp; omega
    simp only [normalizeRow]
    rw [List.getElem?_append_right hge]
    simp only [List.getElem?_replicate]
    rw [if_pos (by simp; omega)]

/-- Witness for C7 on a concrete ragged row and header. -/
theorem normalizeRow_spec_witness :
    (normalizeRow ["a", "b"] 4).length = 4 ∧
    (normalizeRow ["a", "b"] 4)[1]? = (["a", "b"] : List String)[1]? ∧
    (normalizeRow ["a", "b"] 4)[3]? = some "" ∧
    (2 : Nat) < (["x", "y", "Year"] : List String).length :=
  ⟨(normalizeRow_spec ["a", "b"] 4).1,
   (normalizeRow_spec ["a", "b"] 4).2.1 1 (by decide) (by decide),
   (normalizeRow_spec ["a", "b"] 4).2.2.1 3 (by decide) (by decide),
   (normalizeRow_spec ["a", "b"] 4).2.2.2 ["x", "y", "Year"] "Year" 2 (by decide)⟩

/-- `find?` returns the first element of the list satisfying `p` when the
elements before it all fail `p`. -/
theorem find?_first_match (p : String → Bool) (l1 l2 : List String) (v : String)
    (h1 : ∀ u ∈ l1, p u = false) (h2 : p v = true) :
    (l1 ++ v :: l2).find? p = some v := by
  induction l1 with
  | nil => simp [List.find?_cons_of_pos, h2]
  | cons u t ih =>
    have hu : p u = false := h1 u (by simp)
    rw [List.cons_append, List.find?_cons_of_neg _ (by simp [hu])]
    exact ih (fun x hx => h1 x (by simp [hx]))

/-- Claim C9: the default selected indicator is the first list element whose
name contains "all" case-insensitively; with no such element it is the first
element of the (already sorted) list; for the empty list it is the empty
string; and on every ordering of ["Heroin", "All Drugs", "Fentanyl"] it is
"All Drugs". -/
theorem defaultIndicator_rule :
    (∀ (l1 l2 : List String) (v : String),
        (∀ u ∈ l1, strIncludes (jsToLowerCase u) "all" = false) →
        strIncludes (jsToLowerCase v) "all" = true →
        defaultIndicator (l1 ++ v :: l2) = v) ∧
    (∀ l : List String,
        (∀ u ∈ l, strIncludes (jsToLowerCase u) "all" = false) →
        defaultIndicator l = l.headD "") ∧
    defaultIndicator [] = "" ∧
    (∀ l ∈ ([["Heroin", "All Drugs", "Fentanyl"],
             ["Heroin", "Fentanyl", "All Drugs"],
             ["All Drugs", "Heroin", "Fentanyl"],
             ["All Drugs", "Fentanyl", "Heroin"],
             ["Fentanyl", "Heroin", "All Drugs"],
             ["Fentanyl", "All Drugs", "Heroin"]] : List (List String)),
        defaultIndicator l = "All Drugs") := by
  refine ⟨?_, ?_, rfl, by decide⟩
  · intro l1 l2 v h1 h2
    simp [defaultIndicator, find?_first_match _ l1 l2 v h1 h2]
  · intro l h
    have : l.find? (fun v => strIncludes (jsToLowerCase v) "all") = none :=
      List.find?_eq_none.2 (by simpa using h)
    simp [defaultIndicator, this]

/-- Witness for C9: the concrete list from the spec. -/
theorem defaultIndicator_rule_witness :
    defaultIndicator ["Heroin", "All Drugs", "Fentanyl"] = "All Drugs" :=
  defaultIndicator_rule.1 ["Heroin"] ["Fentanyl"] "All Drugs"
    (by decide) (by decide)

/-- Membership in the data of a pushed string. -/
theorem mem_data_push (s : String) (c d : Char) :
    d ∈ (s.push c).data ↔ d ∈ s.data ∨ d = c := by
  cases s
  simp [String.push]

/-- Invariant of the tokenizer loop: no carriage return ever enters a
field — the CR branch drops the character in every mode, and the only
characters ever appended to a field are a literal quote or the current
non-CR character. -/
theorem csvLoop_no_cr (inQ : Bool) (field : String) (row : List String)
    (rows : List (List String)) (cs : List Char) :
    '\r' ∉ field.data →
    (∀ f ∈ row, '\r' ∉ f.data) →
    (∀ r ∈ rows, ∀ f ∈ r, '\r' ∉ f.data) →
    ∀ r ∈ csvLoop inQ field row rows cs, ∀ f ∈ r, '\r' ∉ f.data := by
  induction inQ, field, row, rows, cs using csvLoop.induct with
  | case1 x field row rows h =>
    intro hf hr hrs
    rw [csvLoop.eq_1, if_pos h]
    intro r hmem
    rcases List.mem_append.1 hmem with h1 | h1
    · exact hrs r h1
    · rw [List.mem_singleton] at h1
      subst h1
      intro f hfm
      rcases List.mem_append.1 hfm with h2 | h2
      · exact hr f h2
      · rw [List.mem_singleton] at h2
        subst h2
        exact hf
  | case2 x field row rows h =>
    intro hf hr hrs
    rw [csvLoop.eq_1, if_neg h]
    exact hrs
  | case3 field row rows cs ih =>
    intro hf hr hrs
    rw [csvLoop.eq_2]
    refine ih ?_ hr hrs
    intro hm
    rcases (mem_data_push field '"' '\r').1 hm with h1 | h1
    · exact hf h1
    · exact absurd h1 (by decide)
  | case4 inQ field row rows cs hne ih =>
    intro hf hr hrs
    rw [csvLoop.eq_3 _ _ _ _ _ hne]
    exact ih hf hr hrs
  | case5 inQ field row rows c cs hne hq hcond ih =>
    intro hf hr hrs
    rw [csvLoop.eq_4 _ _ _ _ _ _ hq hne, if_pos hcond]
    refine ih (by decide) ?_ hrs
    intro f hfm
    rcases List.mem_append.1 hfm with h1 | h1
    · exact hr f h1
    · rw [List.mem_singleton] at h1
      subst h1
      exact hf
  | case6 inQ field row rows c cs hne hq hnc hcond ih =>
    intro hf hr hrs
    rw [csvLoop.eq_4 _ _ _ _ _ _ hq hne, if_neg hnc, if_pos hcond]
    refine ih (by decide) (by simp) ?_
    intro r hmem
    rcases List.mem_append.1 hmem with h1 | h1
    · exact hrs r h1
    · rw [List.mem_singleton] at h1
      subst h1
      intro f hfm
      rcases List.mem_append.1 hfm with h2 | h2
      · exact hr f h2
      · rw [List.mem_singleton] at h2
        subst h2
        exact hf
  | case7 inQ field row rows cs hne hq hnc hnn ih =>
    intro hf hr hrs
    rw [csvLoop.eq_4 _ _ _ _ _ _ hq hne, if_neg hnc, if_neg hnn, if_pos rfl]
    exact ih hf hr hrs
  | case8 inQ field row rows c cs hne hq hnc hnn hncr ih =>
    intro hf hr hrs
    rw [csvLoop.eq_4 _ _ _ _ _ _ hq hne, if_neg hnc, if_neg hnn, if_neg hncr]
    refine ih ?_ hr hrs
    intro hm
    rcases (mem_data_push field c '\r').1 hm with h1 | h1
    · exact hf h1
    · exact hncr h1.symm

/-- Claim C8: no field of any row returned by the tokenizer contains a
carriage-return character — CR is dropped unconditionally, even inside
quoted fields. -/
theorem parseCsv_no_cr (text : String) (r : List String) (f : String)
    (hr : r ∈ parseCsv text) (hf : f ∈ r) : '\r' ∉ f.data := by
  unfold parseCsv dropTrailingEmptyRows at hr
  rw [List.mem_reverse] at hr
  have h2 := (List.dropWhile_sublist _).subset hr
  rw [List.mem_reverse] at h2
  exact csvLoop_no_cr false "" [] [] text.data (by decide) (by simp) (by simp)
    r h2 f hf

/-- Witness for C8: tokenizing "a\rb" yields the single field "ab", which
contains no carriage return. -/
theorem parseCsv_no_cr_witness : '\r' ∉ ("ab" : String).data :=
  parseCsv_no_cr "a\rb" ["ab"] "ab" (by decide) (by decide)

/-- Invariant of the tokenizer loop: every emitted row is non-empty (a row
is only ever emitted as `row ++ [field]`). -/
theorem csvLoop_ne_nil (inQ : Bool) (field : String) (row : List String)
    (rows : List (List String)) (cs : List Char) :
    (∀ r ∈ rows, r ≠ []) →
    ∀ r ∈ csvLoop inQ field row rows cs, r ≠ [] := by
  induction inQ, field, row, rows, cs using csvLoop.induct with
  | case1 x field row rows h =>
    intro hrs
    rw [csvLoop.eq_1, if_pos h]
    intro r hmem
    rcases List.mem_append.1 hmem with h1 | h1
    · exact hrs r h1
    · rw [List.mem_singleton] at h1
      subst h1
      simp
  | case2 x field row rows h =>
    intro hrs
    rw [csvLoop.eq_1, if_neg h]
    exact hrs
  | case3 field row rows cs ih =>
    intro hrs
    rw [csvLoop.eq_2]
    exact ih hrs
  | case4 inQ field row rows cs hne ih =>
    intro hrs
    rw [csvLoop.eq_3 _ _ _ _ _ hne]
    exact ih hrs
  | case5 inQ field row rows c cs hne hq hcond ih =>
    intro hrs
    rw [csvLoop.eq_4 _ _ _ _ _ _ hq hne, if_pos hcond]
    exact ih hrs
  | case6 inQ field row rows c cs hne hq hnc hcond ih =>
    intro hrs
    rw [csvLoop.eq_4 _ _ _ _ _ _ hq hne, if_neg hnc, if_pos hcond]
    refine ih ?_
    intro r hmem
    rcases List.mem_append.1 hmem with h1 | h1
    · exact hrs r h1
    · rw [List.mem_singleton] at h1
      subst h1
      simp
  | case7 inQ field row rows cs hne hq hnc hnn ih =>
    intro hrs
    rw [csvLoop.eq_4 _ _ _ _ _ _ hq hne, if_neg hnc, if_neg hnn, if_pos rfl]
    exact ih hrs
  | case8 inQ field row rows c cs hne hq hnc hnn hncr ih =>
    intro hrs
    rw [csvLoop.eq_4 _ _ _ _ _ _ hq hne, if_neg hnc, if_neg hnn, if_neg hncr]
    exact ih hrs

/-- Every row returned by the tokenizer is non-empty. -/
theorem parseCsv_ne_nil (text : String) :
    ∀ r ∈ parseCsv text, r ≠ [] := by
  intro r hr
  unfold parseCsv dropTrailingEmptyRows at hr
  rw [List.mem_reverse] at hr
  have h2 := (List.dropWhile_sublist _).subset hr
  rw [List.mem_reverse] at h2
  exact csvLoop_ne_nil false "" [] [] text.data (by simp) r h2

/-- `findIdxFrom` finds nothing exactly when no element satisfies `p`. -/
theorem findIdxFrom_eq_none (p : String → Bool) (l : List String) :
    findIdxFrom p l = none ↔ ∀ x ∈ l, p x = false := by
  induction l with
  | nil => simp [findIdxFrom]
  | cons x t ih =>
    simp only [findIdxFrom]
    by_cases hp : p x
    · simp [hp]
    · simp [hp, ih]

/-- A column resolves to no index exactly when its name is absent from the
header. -/
theorem lastIdxOf_eq_none (l : List String) (name : String) :
    lastIdxOf l name = none ↔ name ∉ l := by
  unfold lastIdxOf
  rw [Option.map_eq_none', findIdxFrom_eq_none]
  constructor
  · intro h hmem
    have := h name (List.mem_reverse.2 hmem)
    simp at this
  · intro h x hx
    rw [List.mem_reverse] at hx
    simp only [decide_eq_false_iff_not]
    intro he
    exact h (he ▸ hx)

/-- Claim C5: whenever the parsed header row lacks any of the four required
column names (`Year`, `Month`, `Indicator`, `Data Value`), `load` fails with
the schema error whose message lists the column names actually found, and no
aggregation result is produced. -/
theorem load_missing_column (text : String) (hd : List String)
    (rest : List (List String)) (hp : parseCsv text = hd :: rest)
    (hmiss : "Year" ∉ hd ∨ "Month" ∉ hd ∨ "Indicator" ∉ hd ∨ "Data Value" ∉ hd) :
    load text = Except.error
      ("CSV missing required columns. Found headers: " ++
        String.intercalate ", " hd) := by
  have hne : hd ≠ [] := parseCsv_ne_nil text hd (by rw [hp]; exact List.mem_cons_self hd rest)
  unfold load
  rw [hp]
  simp only []
  rw [if_neg (fun h => hne (List.length_eq_zero.1 h))]
  split
  · rename_i yi mi ii di hY hM hI hD
    exfalso
    rcases hmiss with h | h | h | h
    · rw [(lastIdxOf_eq_none hd "Year").2 h] at hY
      exact Option.noConfusion hY
    · rw [(lastIdxOf_eq_none hd "Month").2 h] at hM
      exact Option.noConfusion hM
    · rw [(lastIdxOf_eq_none hd "Indicator").2 h] at hI
      exact Option.noConfusion hI
    · rw [(lastIdxOf_eq_none hd "Data Value").2 h] at hD
      exact Option.noConfusion hD
  · rfl

/-- Witness for C5: a header missing the `Indicator` column. -/
theorem load_missing_column_witness :
    load "Year,Month,Data Value\n2021,January,10\n" =
      Except.error
        ("CSV missing required columns. Found headers: " ++
          String.intercalate ", " ["Year", "Month", "Data Value"]) :=
  load_missing_column "Year,Month,Data Value\n2021,January,10\n"
    ["Year", "Month", "Data Value"] [["2021", "January", "10"]]
    (by decide) (Or.inr (Or.inr (Or.inl (by decide))))

/-- A recognized month name maps to an ordinal between 1 and 12. -/
theorem monthToNum_bounds (s : String) (m : Nat) (h : monthToNum s = some m) :
    1 ≤ m ∧ m ≤ 12 := by
  unfold monthToNum at h
  cases hf : findIdxFrom (· = s) MONTHS with
  | none => rw [hf] at h; simp at h
  | some i =>
    rw [hf] at h
    simp at h
    have := findIdxFrom_lt_length _ _ _ hf
    simp [MONTHS] at this
    omega

/-- The zero-padded month ordinal renders as exactly two digit characters. -/
theorem padMonth_shape (m : Nat) (h1 : 1 ≤ m) (h2 : m ≤ 12) :
    (padStart (toString m) 2 '0').length = 2 ∧
    ∀ c ∈ (padStart (toString m) 2 '0').data, c.isDigit := by
  interval_cases m <;> exact ⟨by decide, by decide⟩

/-- Counterexample to claim C6: the Year field "5" parses to the finite
number 5, so the row is accepted, and the produced grouping key is "5-01" —
not of the canonical 4-digit-year YYYY-MM form.  The full pipeline stores
the value under that key. -/
theorem c6_counterexample :
    rowObservation 4 ⟨0, 1, 2, 3, none⟩ ["5", "January", "Opioid", "10"] =
      some ("Opioid", "5-01", 10) ∧
    specCanonicalMonthKey "5-01" = false ∧
    load "Year,Month,Indicator,Data Value\n5,January,Opioid,10\n" =
      Except.ok ⟨[("Opioid", [("5-01", 10)])], [("Opioid", [("5-01", 1)])],
        ["Opioid"], "Opioid"⟩ :=
  ⟨rfl, rfl, rfl⟩

/-- Claim C6 (amended): for every row the aggregator accepts, the grouping
key is the decimal rendering of the parsed Year value, a hyphen, and the
zero-padded two-digit month ordinal; the month part is always exactly two
digits, but the year part is whatever the Year field parsed to and is not
forced to four digits. -/
theorem rowObservation_monthKey (hlen : Nat) (idxs : ColIdxs) (r : List String)
    (ind mk : String) (v : ℚ)
    (h : rowObservation hlen idxs r = some (ind, mk, v)) :
    ∃ y m, ((normalizeRow r hlen).get? idxs.yearIdx).bind jsNumber = some y ∧
      monthToNum (((normalizeRow r hlen).get? idxs.monthIdx).getD "") = some m ∧
      mk = jsNumToString y ++ "-" ++ padStart (toString m) 2 '0' ∧
      (padStart (toString m) 2 '0').length = 2 ∧
      (∀ c ∈ (padStart (toString m) 2 '0').data, c.isDigit) := by
  simp only [rowObservation] at h
  cases hy : ((normalizeRow r hlen).get? idxs.yearIdx).bind jsNumber with
  | none => rw [hy] at h; exact absurd h (by simp)
  | some y =>
    rw [hy] at h
    cases hm : monthToNum (((normalizeRow r hlen).get? idxs.monthIdx).getD "") with
    | none => rw [hm] at h; exact absurd h (by simp)
    | some m =>
      rw [hm] at h
      simp only [] at h
      by_cases hind : ((normalizeRow r hlen).get? idxs.indicatorIdx).getD "" = ""
      · rw [if_pos hind] at h
        exact absurd h (by simp)
      · rw [if_neg hind] at h
        obtain ⟨b1, b2⟩ := monthToNum_bounds _ _ hm
        obtain ⟨p1, p2⟩ := padMonth_shape m b1 b2
        refine ⟨y, m, rfl, rfl, ?_, p1, p2⟩
        revert h
        cases hval : (match (normalizeRow r hlen).get? idxs.dataValueIdx with
          | none => none
          | some s => if s ≠ "" then jsNumber s
              else (match idxs.predictedIdx with
                | some p => (normalizeRow r hlen).get? p
                | none => some "").bind jsNumber) with
        | none => intro h; exact absurd h (by simp)
        | some value =>
          intro h
          simp only [Option.some.injEq, Prod.mk.injEq] at h
          rw [← h.2.1]
          rfl

/-- Witness for C6 (amended) on a concrete accepted row. -/
theorem rowObservation_monthKey_witness :
    ∃ y m, ((normalizeRow ["2021", "January", "Opioid", "10"] 4).get? 0).bind
        jsNumber = some y ∧
      monthToNum (((normalizeRow ["2021", "January", "Opioid", "10"] 4).get?
        1).getD "") = some m ∧
      "2021-01" = jsNumToString y ++ "-" ++ padStart (toString m) 2 '0' ∧
      (padStart (toString m) 2 '0').length = 2 ∧
      (∀ c ∈ (padStart (toString m) 2 '0').data, c.isDigit) :=
  rowObservation_monthKey 4 ⟨0, 1, 2, 3, none⟩ ["2021", "January", "Opioid", "10"]
    "Opioid" "2021-01" 10 rfl

/-- Writing a key makes it readable. -/
theorem alGet_alSet_self {β : Type} (m : List (String × β)) (k : String) (v : β) :
    alGet (alSet m k v) k = some v := by
  induction m with
  | nil => simp [alSet, alGet]
  | cons p t ih =>
    obtain ⟨k', v'⟩ := p
    by_cases h : k' = k
    · simp [alSet, alGet, h]
    · simp [alSet, alGet, h, ih]

/-- Writing one key leaves every other key unchanged. -/
theorem alGet_alSet_ne {β : Type} (m : List (String × β)) (k k' : String) (v : β)
    (h : k' ≠ k) : alGet (alSet m k v) k' = alGet m k' := by
  induction m with
  | nil => simp [alSet, alGet, Ne.symm h]
  | cons p t ih =>
    obtain ⟨k0, v0⟩ := p
    by_cases h0 : k0 = k
    · subst h0
      have h' : ¬(k0 = k') := fun he => h he.symm
      simp [alSet, alGet, h']
    · simp only [alSet, if_neg h0]
      by_cases h1 : k0 = k'
      · simp [alGet, h1]
      · simp [alGet, h1, ih]

/-- The accumulation step updates exactly the bumped bucket, reading a
missing bucket as zero. -/
theorem alGet2_bump_self (m : List (String × List (String × ℚ)))
    (ind mk : String) (v : ℚ) :
    alGet2 (bump m ind mk v) ind mk = some ((alGet2 m ind mk).getD 0 + v) := by
  unfold bump alGet2
  rw [alGet_alSet_self]
  simp only []
  rw [alGet_alSet_self]
  cases h : alGet m ind with
  | none => simp [h, alGet]
  | some inner => simp [h]

/-- The accumulation step leaves every other bucket unchanged. -/
theorem alGet2_bump_ne (m : List (String × List (String × ℚ)))
    (ind mk i k : String) (v : ℚ) (h : i ≠ ind ∨ k ≠ mk) :
    alGet2 (bump m ind mk v) i k = alGet2 m i k := by
  unfold bump alGet2
  by_cases hi : i = ind
  · subst hi
    have hk : k ≠ mk := h.resolve_left (fun he => he rfl)
    rw [alGet_alSet_self]
    simp only []
    rw [alGet_alSet_ne _ _ _ _ hk]
    cases hg : alGet m i with
    | none => simp [alGet]
    | some inner => simp
  · rw [alGet_alSet_ne _ _ _ _ hi]

/-- Inserting into a sorted list permutes. -/
theorem insertSorted_perm (x : String) (l : List String) :
    List.Perm (insertSorted x l) (x :: l) := by
  induction l with
  | nil => exact List.Perm.refl _
  | cons y t ih =>
    unfold insertSorted
    by_cases h : strLeB x y
    · rw [if_pos h]
    · rw [if_neg h]
      exact List.Perm.trans (List.Perm.cons y ih) (List.Perm.swap x y t)

/-- Sorting the indicator set permutes it. -/
theorem sortStrings_perm (l : List String) : List.Perm (sortStrings l) l := by
  induction l with
  | nil => exact List.Perm.refl _
  | cons x t ih =>
    unfold sortStrings
    exact List.Perm.trans (insertSorted_perm _ _) (List.Perm.cons x ih)

/-- One aggregation step preserves the equality of the totals and counts
key sets (both maps are bumped at the same bucket). -/
theorem applyRow_dom (hlen : Nat) (idxs : ColIdxs) (st : AggState)
    (r : List String)
    (h : ∀ i k, (alGet2 st.totals i k).isSome ↔ (alGet2 st.counts i k).isSome) :
    ∀ i k, (alGet2 (applyRow hlen idxs st r).totals i k).isSome ↔
      (alGet2 (applyRow hlen idxs st r).counts i k).isSome := by
  unfold applyRow
  cases ho : rowObservation hlen idxs r with
  | none => exact h
  | some obs =>
    obtain ⟨ind, mk, v⟩ := obs
    intro i k
    simp only []
    by_cases hik : i = ind ∧ k = mk
    · obtain ⟨hi, hk⟩ := hik
      subst hi
      subst hk
      rw [alGet2_bump_self, alGet2_bump_self]
      simp
    · have h' : i ≠ ind ∨ k ≠ mk := by
        by_cases hi : i = ind
        · exact Or.inr (fun hk => hik ⟨hi, hk⟩)
        · exact Or.inl hi
      rw [alGet2_bump_ne _ _ _ _ _ _ h', alGet2_bump_ne _ _ _ _ _ _ h']
      exact h i k

/-- One aggregation step preserves positivity and integrality of all
stored counts: a bucket is created at 1 and only ever incremented by 1. -/
theorem applyRow_counts_pos (hlen : Nat) (idxs : ColIdxs) (st : AggState)
    (r : List String)
    (h : ∀ i k q, alGet2 st.counts i k = some q → ∃ n : ℕ, 0 < n ∧ q = (n : ℚ)) :
    ∀ i k q, alGet2 (applyRow hlen idxs st r).counts i k = some q →
      ∃ n : ℕ, 0 < n ∧ q = (n : ℚ) := by
  unfold applyRow
  cases ho : rowObservation hlen idxs r with
  | none => exact h
  | some obs =>
    obtain ⟨ind, mk, v⟩ := obs
    intro i k q hq
    simp only [] at hq
    by_cases hik : i = ind ∧ k = mk
    · obtain ⟨hi, hk⟩ := hik
      subst hi
      subst hk
      rw [alGet2_bump_self] at hq
      rw [Option.some_inj] at hq
      cases hc : alGet2 st.counts i k with
      | none =>
        refine ⟨1, by norm_num, ?_⟩
        rw [← hq, hc]
        norm_num
      | some q0 =>
        obtain ⟨n0, hn0, hq0⟩ := h i k q0 hc
        refine ⟨n0 + 1, by omega, ?_⟩
        rw [← hq, hc]
        simp only [Option.getD_some, hq0]
        push_cast
        ring
    · have h' : i ≠ ind ∨ k ≠ mk := by
        by_cases hi : i = ind
        · exact Or.inr (fun hk => hik ⟨hi, hk⟩)
        · exact Or.inl hi
      rw [alGet2_bump_ne _ _ _ _ _ _ h'] at hq
      exact h i k q hq

/-- One aggregation step keeps the indicator set equal to the set of
indicators owning at least one totals bucket. -/
theorem applyRow_indicators (hlen : Nat) (idxs : ColIdxs) (st : AggState)
    (r : List String)
    (h : ∀ i, i ∈ st.indicatorSet ↔ ∃ k, (alGet2 st.totals i k).isSome) :
    ∀ i, i ∈ (applyRow hlen idxs st r).indicatorSet ↔
      ∃ k, (alGet2 (applyRow hlen idxs st r).totals i k).isSome := by
  unfold applyRow
  cases ho : rowObservation hlen idxs r with
  | none => exact h
  | some obs =>
    obtain ⟨ind, mk, v⟩ := obs
    intro i
    simp only []
    have pres : ∀ k, (alGet2 st.totals i k).isSome →
        (alGet2 (bump st.totals ind mk v) i k).isSome := by
      intro k hs
      by_cases hik : i = ind ∧ k = mk
      · obtain ⟨hi, hk⟩ := hik
        subst hi
        subst hk
        rw [alGet2_bump_self]
        simp
      · have h' : i ≠ ind ∨ k ≠ mk := by
          by_cases hi : i = ind
          · exact Or.inr (fun hk => hik ⟨hi, hk⟩)
          · exact Or.inl hi
        rw [alGet2_bump_ne _ _ _ _ _ _ h']
        exact hs
    constructor
    · intro hmem
      by_cases hin : ind ∈ st.indicatorSet
      · rw [if_pos hin] at hmem
        obtain ⟨k, hk⟩ := (h i).1 hmem
        exact ⟨k, pres k hk⟩
      · rw [if_neg hin] at hmem
        rcases List.mem_append.1 hmem with h1 | h1
        · obtain ⟨k, hk⟩ := (h i).1 h1
          exact ⟨k, pres k hk⟩
        · rw [List.mem_singleton] at h1
          subst h1
          refine ⟨mk, ?_⟩
          rw [alGet2_bump_self]
          simp
    · rintro ⟨k, hk⟩
      by_cases hi : i = ind
      · subst hi
        by_cases hin : i ∈ st.indicatorSet
        · rw [if_pos hin]
          exact hin
        · rw [if_neg hin]
          exact List.mem_append.2 (Or.inr (List.mem_singleton.2 rfl))
      · have h' : i ≠ ind ∨ k ≠ mk := Or.inl hi
        rw [alGet2_bump_ne _ _ _ _ _ _ h'] at hk
        have hmem := (h i).2 ⟨k, hk⟩
        by_cases hin : ind ∈ st.indicatorSet
        · rw [if_pos hin]
          exact hmem
        · rw [if_neg hin]
          exact List.mem_append.2 (Or.inl hmem)

/-- The three aggregation invariants hold after folding any row list from
any state satisfying them. -/
theorem foldl_applyRow_inv (hlen : Nat) (idxs : ColIdxs) (rows : List (List String))
    (st : AggState)
    (h1 : ∀ i k, (alGet2 st.totals i k).isSome ↔ (alGet2 st.counts i k).isSome)
    (h2 : ∀ i k q, alGet2 st.counts i k = some q → ∃ n : ℕ, 0 < n ∧ q = (n : ℚ))
    (h3 : ∀ i, i ∈ st.indicatorSet ↔ ∃ k, (alGet2 st.totals i k).isSome) :
    (∀ i k, (alGet2 (rows.foldl (applyRow hlen idxs) st).totals i k).isSome ↔
        (alGet2 (rows.foldl (applyRow hlen idxs) st).counts i k).isSome) ∧
    (∀ i k q, alGet2 (rows.foldl (applyRow hlen idxs) st).counts i k = some q →
        ∃ n : ℕ, 0 < n ∧ q = (n : ℚ)) ∧
    (∀ i, i ∈ (rows.foldl (applyRow hlen idxs) st).indicatorSet ↔
        ∃ k, (alGet2 (rows.foldl (applyRow hlen idxs) st).totals i k).isSome) := by
  induction rows generalizing st with
  | nil => exact ⟨h1, h2, h3⟩
  | cons r t ih =>
    exact ih (applyRow hlen idxs st r)
      (applyRow_dom hlen idxs st r h1)
      (applyRow_counts_pos hlen idxs st r h2)
      (applyRow_indicators hlen idxs st r h3)

/-- Claim C10: after any successful aggregation pass, the totals map and
the counts map have exactly the same (indicator, MonthKey) buckets, every
stored count is a positive integer, and the published indicator list holds
exactly the indicators owning at least one bucket. -/
theorem load_agg_invariants (text : String) (out : AggOut)
    (h : load text = Except.ok out) :
    (∀ i k, (alGet2 out.totals i k).isSome ↔ (alGet2 out.counts i k).isSome) ∧
    (∀ i k q, alGet2 out.counts i k = some q → ∃ n : ℕ, 0 < n ∧ q = (n : ℚ)) ∧
    (∀ i, i ∈ out.indicators ↔ ∃ k, (alGet2 out.totals i k).isSome) := by
  unfold load at h
  cases hp : parseCsv text with
  | nil =>
    rw [hp] at h
    exact absurd h (by simp)
  | cons hd rest =>
    rw [hp] at h
    simp only [] at h
    by_cases hl : hd.length = 0
    · rw [if_pos hl] at h
      exact absurd h (by simp)
    · rw [if_neg hl] at h
      split at h
      · rename_i yi mi ii di hY hM hI hD
        rw [Except.ok.injEq] at h
        subst h
        have base1 : ∀ i k,
            (alGet2 (⟨[], [], []⟩ : AggState).totals i k).isSome ↔
            (alGet2 (⟨[], [], []⟩ : AggState).counts i k).isSome := by
          intro i k
          simp [alGet2, alGet]
        have base2 : ∀ i k q,
            alGet2 (⟨[], [], []⟩ : AggState).counts i k = some q →
            ∃ n : ℕ, 0 < n ∧ q = (n : ℚ) := by
          intro i k q hq
          simp [alGet2, alGet] at hq
        have base3 : ∀ i,
            i ∈ (⟨[], [], []⟩ : AggState).indicatorSet ↔
            ∃ k, (alGet2 (⟨[], [], []⟩ : AggState).totals i k).isSome := by
          intro i
          simp [alGet2, alGet]
        obtain ⟨inv1, inv2, inv3⟩ :=
          foldl_applyRow_inv hd.length ⟨yi, mi, ii, di, lastIdxOf hd "Predicted Value"⟩
            rest ⟨[], [], []⟩ base1 base2 base3
        refine ⟨inv1, inv2, ?_⟩
        intro i
        rw [(sortStrings_perm _).mem_iff]
        exact inv3 i
      · exact absurd h (by simp)

/-- Witness for C10 on the scenario input. -/
theorem load_agg_invariants_witness :
    ((alGet2 c1out.totals "Opioid" "2021-01").isSome ↔
      (alGet2 c1out.counts "Opioid" "2021-01").isSome) ∧
    ("Opioid" ∈ c1out.indicators ↔
      ∃ k, (alGet2 c1out.totals "Opioid" k).isSome) :=
  ⟨(load_agg_invariants c1text c1out rfl).1 "Opioid" "2021-01",
   (load_agg_invariants c1text c1out rfl).2.2 "Opioid"⟩
